import Mathlib

/-!
Verification of the microblog.pub single-actor ActivityPub node (`src/app.py`)
against its natural-language specification.

The development shallowly embeds the parts of `app.py` the claims are about:
Mongo documents become Lean structures holding exactly the fields the code
reads, Mongo queries become decidable predicates, `find(...).sort(...).limit`
becomes filter + stable insertion sort + take, and the HTTP handlers become
pure functions from their inputs (request data, database contents, outcomes of
external collaborators such as the HTTP-signature verifier) to responses.
-/

/-! ## Pagination model (`index`, `with_replies`, `stream`, `outbox` in app.py)

A `PRec` holds the fields of an outbox/inbox document that the pagination
queries of `app.py` touch: the Mongo `_id` (a monotonic ordering key, modelled
as `Nat`), the activity `type`, `activity.object.type`,
`activity.object.inReplyTo`, `activity.published` (timestamps modelled as
naturals ordered like the ISO strings of the source), and the two meta flags.
-/

structure PRec where
  oid : Nat
  typ : String
  objTyp : String
  inReplyTo : Option String
  published : Nat
  metaDeleted : Bool
  metaUndo : Bool
deriving DecidableEq

/-- The base query `q` built in `index` (app.py:434-439):
`{"type": "Create", "activity.object.type": "Note",
  "activity.object.inReplyTo": None, "meta.deleted": False}`. -/
def indexBaseQ (r : PRec) : Bool :=
  r.typ == "Create" && r.objTyp == "Note" && r.inReplyTo == none
    && r.metaDeleted == false

/-- The base query `q` built in `with_replies` (app.py:480):
same as `indexBaseQ` without the `inReplyTo` restriction. -/
def withRepliesBaseQ (r : PRec) : Bool :=
  r.typ == "Create" && r.objTyp == "Note" && r.metaDeleted == false

/-- The second `$or` branch used by `index`/`with_replies` (app.py:446, 487):
`{"type": "Announce", "meta.undo": False}`. -/
def announceUndoQ (r : PRec) : Bool :=
  r.typ == "Announce" && r.metaUndo == false

/-- The second `$or` branch used by `stream` (app.py:1085): `{"type": "Announce"}`. -/
def announceQ (r : PRec) : Bool :=
  r.typ == "Announce"

/-- The cursor clause `{"_id": {"$lt": ObjectId(c)}}` that `index`,
`with_replies` and `stream` add to their base query when a `cursor` query
argument is present (app.py:440-442, 481-483, 1080-1082). -/
def belowCursor : Option Nat → PRec → Bool
  | none, _ => true
  | some c, r => decide (r.oid < c)

/-- Stable insertion (descending by `key`): the new element passes every
strictly greater element and lands before the first element whose key is not
greater, so earlier list elements precede equal-keyed later ones. -/
def insertDescBy (key : α → Nat) (x : α) : List α → List α
  | [] => [x]
  | y :: ys => if key x < key y then y :: insertDescBy key x ys else x :: y :: ys

/-- Stable sort, descending by `key`: models Mongo `sort(field, -1)`. -/
def sortDescBy (key : α → Nat) : List α → List α
  | [] => []
  | x :: xs => insertDescBy key x (sortDescBy key xs)

/-- `collection.find(q, limit=limit).sort(field, -1)`: PyMongo applies the
sort server-side before the limit, so the model sorts the filtered documents
and then takes `limit` of them. -/
def mongoFindSortLimit (q : PRec → Bool) (key : PRec → Nat) (limit : Nat)
    (db : List PRec) : List PRec :=
  (sortDescBy key (db.filter q)).take limit

/-- The query actually sent by `index`/`with_replies`/`stream`:
`{"$or": [q, orQ]}` where the cursor clause was added *inside* the first
branch `q` only (app.py:440-447). -/
def pageQuery (baseQ orQ : PRec → Bool) (cursor : Option Nat) (r : PRec) : Bool :=
  (baseQ r && belowCursor cursor r) || orQ r

/-- One paginated page as produced by `index`/`with_replies`/`stream`
(app.py:444-451): run the `$or` query, sort descending, take `limit`, and set
the next cursor to the last item's `_id` exactly when the page is non-empty
and full (`if outbox_data and len(outbox_data) == limit`). -/
def findPage (baseQ orQ : PRec → Bool) (key : PRec → Nat) (limit : Nat)
    (db : List PRec) (cursor : Option Nat) : List PRec × Option Nat :=
  let items := mongoFindSortLimit (pageQuery baseQ orQ cursor) key limit db
  (items,
    if !items.isEmpty && items.length == limit
    then (items.getLast?).map (·.oid) else none)

/-- The `index` view's paginated read (app.py:427-451): limit 50, ordered by
`_id` descending. -/
def index_page (db : List PRec) (cursor : Option Nat) : List PRec × Option Nat :=
  findPage indexBaseQ announceUndoQ (·.oid) 50 db cursor

/-- The `with_replies` view's paginated read (app.py:477-492). -/
def with_replies_page (db : List PRec) (cursor : Option Nat) : List PRec × Option Nat :=
  findPage withRepliesBaseQ announceUndoQ (·.oid) 50 db cursor

/-- The `stream` view's paginated read (app.py:1069-1091): limit 100, the
`$or` branch is a bare `{"type": "Announce"}`, and the sort key is
`activity.published`, not the `_id` that the cursor compares against. -/
def stream_page (db : List PRec) (cursor : Option Nat) : List PRec × Option Nat :=
  findPage indexBaseQ announceQ (·.published) 100 db cursor

/-- The full filter of the `index` view, as the spec describes "the caller's
filter": both `$or` branches together (app.py:446). -/
def indexFullFilter (r : PRec) : Bool :=
  indexBaseQ r || announceUndoQ r

/-- Modelled from the spec (§4.4): the page a cursor-based paginator *should*
return according to the claim — the records matching the caller's whole
filter AND whose ordering key is strictly below the cursor, sorted descending
by ordering key, truncated to `limit`. Used to compare against the code's
actual `findPage`. -/
def cursorSpecPage (flt : PRec → Bool) (key : PRec → Nat) (limit : Nat)
    (db : List PRec) (c : Nat) : List PRec :=
  (sortDescBy key (db.filter (fun r => flt r && decide (key r < c)))).take limit

/-- The query `q = {"meta.deleted": False}` of the protocol-level
`GET /outbox` ordered-collection read (app.py:727-730). -/
def outboxGetQ (r : PRec) : Bool :=
  r.metaDeleted == false

/-! ### Sorting lemmas -/

theorem mem_insertDescBy (key : α → Nat) (x : α) (l : List α) (z : α) :
    z ∈ insertDescBy key x l ↔ z = x ∨ z ∈ l := by
  induction l with
  | nil => simp [insertDescBy]
  | cons y ys ih =>
    by_cases h : key x < key y
    · simp only [insertDescBy, if_pos h, List.mem_cons, ih]
      tauto
    · simp only [insertDescBy, if_neg h, List.mem_cons]

theorem perm_insertDescBy (key : α → Nat) (x : α) (l : List α) :
    List.Perm (insertDescBy key x l) (x :: l) := by
  induction l with
  | nil => simp [insertDescBy]
  | cons y ys ih =>
    by_cases h : key x < key y
    · simp only [insertDescBy, if_pos h]
      exact (ih.cons y).trans (List.Perm.swap x y ys)
    · simp [insertDescBy, if_neg h]

theorem perm_sortDescBy (key : α → Nat) (l : List α) :
    List.Perm (sortDescBy key l) l := by
  induction l with
  | nil => simp [sortDescBy]
  | cons x xs ih =>
    exact (perm_insertDescBy key x (sortDescBy key xs)).trans (ih.cons x)

theorem pairwise_insertDescBy (key : α → Nat) (x : α) (l : List α)
    (h : l.Pairwise (fun a b => key b ≤ key a)) :
    (insertDescBy key x l).Pairwise (fun a b => key b ≤ key a) := by
  induction l with
  | nil => simp [insertDescBy]
  | cons y ys ih =>
    rcases List.pairwise_cons.mp h with ⟨hy, hys⟩
    by_cases hk : key x < key y
    · simp only [insertDescBy, if_pos hk]
      refine List.pairwise_cons.mpr ⟨?_, ih hys⟩
      intro z hz
      rcases (mem_insertDescBy key x ys z).mp hz with rfl | hzys
      · exact Nat.le_of_lt hk
      · exact hy z hzys
    · simp only [insertDescBy, if_neg hk]
      refine List.pairwise_cons.mpr ⟨?_, h⟩
      intro z hz
      rcases List.mem_cons.mp hz with rfl | hzys
      · exact Nat.le_of_not_lt hk
      · exact le_trans (hy z hzys) (Nat.le_of_not_lt hk)

theorem pairwise_sortDescBy (key : α → Nat) (l : List α) :
    (sortDescBy key l).Pairwise (fun a b => key b ≤ key a) := by
  induction l with
  | nil => simp [sortDescBy]
  | cons x xs ih => exact pairwise_insertDescBy key x (sortDescBy key xs) ih

theorem filter_insertDescBy (key : α → Nat) (p : α → Bool) (x : α) (l : List α)
    (h : l.Pairwise (fun a b => key b ≤ key a)) :
    (insertDescBy key x l).filter p =
      if p x then insertDescBy key x (l.filter p) else l.filter p := by
  induction l with
  | nil => cases hpx : p x <;> simp [insertDescBy, hpx]
  | cons y ys ih =>
    rcases List.pairwise_cons.mp h with ⟨hy, hys⟩
    by_cases hk : key x < key y
    · cases hpx : p x <;> cases hpy : p y <;>
        simp [insertDescBy, hk, hpx, hpy, ih hys]
    · cases hpx : p x
      · simp [insertDescBy, hk, hpx]
      · cases hpy : p y
        · -- x kept, y dropped: x must land in front of `filter p ys` too,
          -- because everything in ys has key ≤ key y ≤ key x.
          have hall : ∀ z ∈ ys.filter p, ¬ key x < key z := by
            intro z hz
            exact Nat.not_lt.mpr
              (le_trans (hy z (List.mem_of_mem_filter hz)) (Nat.le_of_not_lt hk))
          cases hfy : ys.filter p with
          | nil => simp [insertDescBy, hk, hpx, hpy, hfy]
          | cons w ws =>
            have hw : ¬ key x < key w :=
              hall w (by rw [hfy]; exact List.mem_cons_self w ws)
            simp [insertDescBy, hk, hpx, hpy, hfy, hw]
        · simp [insertDescBy, hk, hpx, hpy]

theorem filter_sortDescBy (key : α → Nat) (p : α → Bool) (l : List α) :
    (sortDescBy key l).filter p = sortDescBy key (l.filter p) := by
  induction l with
  | nil => simp [sortDescBy]
  | cons x xs ih =>
    cases hpx : p x <;>
      simp [sortDescBy, filter_insertDescBy key p x (sortDescBy key xs)
        (pairwise_sortDescBy key xs), hpx, ih]

theorem getLast?_isSome_of_ne_nil : ∀ (l : List α), l ≠ [] → l.getLast?.isSome
  | [], h => absurd rfl h
  | [_], _ => rfl
  | _ :: b :: bs, _ => by
    rw [List.getLast?_cons_cons]
    exact getLast?_isSome_of_ne_nil (b :: bs) (by simp)

theorem pairwise_lt_of_pairwise_le_nodup (key : α → Nat) (l : List α)
    (hle : l.Pairwise (fun a b => key b ≤ key a))
    (hnd : (l.map key).Nodup) :
    l.Pairwise (fun a b => key b < key a) := by
  have hne : l.Pairwise (fun a b => key a ≠ key b) := by
    rw [List.Nodup, List.pairwise_map] at hnd
    exact hnd
  exact (hle.and hne).imp
    (fun h => Nat.lt_of_le_of_ne h.1 (fun he => h.2 he.symm))

/-- The next-cursor rule shared by `index`/`with_replies`/`stream`
(app.py:449-451): a next cursor is produced exactly when the page came back
full. -/
theorem findPage_snd_ne_none (baseQ orQ : PRec → Bool) (key : PRec → Nat)
    (limit : Nat) (db : List PRec) (cursor : Option Nat) (hl : 0 < limit) :
    (findPage baseQ orQ key limit db cursor).snd ≠ none ↔
      (findPage baseQ orQ key limit db cursor).fst.length = limit := by
  unfold findPage
  simp only []
  by_cases hcond :
      (!(mongoFindSortLimit (pageQuery baseQ orQ cursor) key limit db).isEmpty
        && (mongoFindSortLimit (pageQuery baseQ orQ cursor) key limit db).length == limit) = true
  · rcases Bool.and_eq_true_iff.mp hcond with ⟨hne, hlen⟩
    have hlen2 : (mongoFindSortLimit (pageQuery baseQ orQ cursor) key limit db).length
        = limit := by simpa using hlen
    have hnil : mongoFindSortLimit (pageQuery baseQ orQ cursor) key limit db ≠ [] := by
      intro h
      rw [h] at hne
      simp [List.isEmpty] at hne
    have hsome := getLast?_isSome_of_ne_nil _ hnil
    rw [if_pos hcond]
    constructor
    · intro _; exact hlen2
    · intro _
      cases hg : (mongoFindSortLimit (pageQuery baseQ orQ cursor) key limit db).getLast? with
      | none => rw [hg] at hsome; simp at hsome
      | some v => simp [hg]
  · rw [if_neg hcond]
    constructor
    · intro h; exact absurd rfl h
    · intro hlen
      exfalso
      apply hcond
      have hnil : mongoFindSortLimit (pageQuery baseQ orQ cursor) key limit db ≠ [] := by
        intro h
        rw [h] at hlen
        simp at hlen
        omega
      simp [List.isEmpty_iff, hnil, hlen]

/-- A non-undone Announce record with ordering key 5, used to exhibit the
cursor bug of `index` (app.py:440-446). -/
def annRec5 : PRec :=
  { oid := 5, typ := "Announce", objTyp := "Note", inReplyTo := none,
    published := 0, metaDeleted := false, metaUndo := false }

/-- C3 counterexample: with the dataset holding the single non-undone
Announce record `annRec5` (ordering key 5) and cursor 3, the code's `index`
page returns that record even though its ordering key is not below the
cursor, while the claim's "caller's filter AND key strictly less than
cursor" page is empty. -/
theorem c3_counterexample_announce_ignores_cursor :
    (index_page [annRec5] (some 3)).fst = [annRec5]
      ∧ cursorSpecPage indexFullFilter (·.oid) 50 [annRec5] 3 = []
      ∧ (index_page [annRec5] (some 3)).fst
          ≠ cursorSpecPage indexFullFilter (·.oid) 50 [annRec5] 3 := by
  decide

/-- C3 (amended): with a cursor present, `index` and `with_replies` return
the records matching either (the Create-Note branch of their filter AND `_id`
strictly below the cursor) or the Announce branch regardless of the cursor,
sorted descending by `_id` and truncated to 50; `stream` does the same with
limit 100 but sorts by `activity.published` instead of the cursor's ordering
key; in all three views the next cursor is set iff exactly `limit` items were
returned. -/
theorem c3_amended_cursor_scopes_create_branch (db : List PRec) (c : Nat) :
    (index_page db (some c)).fst =
        (sortDescBy (·.oid) (db.filter
          (fun r => (indexBaseQ r && decide (r.oid < c)) || announceUndoQ r))).take 50
      ∧ ((index_page db (some c)).fst).Pairwise (fun a b => b.oid ≤ a.oid)
      ∧ (index_page db (some c)).fst.length ≤ 50
      ∧ ((index_page db (some c)).snd ≠ none ↔ (index_page db (some c)).fst.length = 50)
      ∧ (with_replies_page db (some c)).fst =
          (sortDescBy (·.oid) (db.filter
            (fun r => (withRepliesBaseQ r && decide (r.oid < c)) || announceUndoQ r))).take 50
      ∧ (stream_page db (some c)).fst =
          (sortDescBy (·.published) (db.filter
            (fun r => (indexBaseQ r && decide (r.oid < c)) || announceQ r))).take 100
      ∧ ((stream_page db (some c)).snd ≠ none ↔ (stream_page db (some c)).fst.length = 100) := by
  refine ⟨rfl, ?_, ?_, ?_, rfl, rfl, ?_⟩
  · exact List.Pairwise.sublist (List.take_sublist _ _)
      (pairwise_sortDescBy (fun r : PRec => r.oid) _)
  · exact List.length_take_le _ _
  · exact findPage_snd_ne_none _ _ _ _ _ _ (by omega)
  · exact findPage_snd_ne_none _ _ _ _ _ _ (by omega)

/-- A Like record that `GET /outbox` serves but the `index` view filters out. -/
def likeRec : PRec :=
  { oid := 1, typ := "Like", objTyp := "", inReplyTo := none,
    published := 0, metaDeleted := false, metaUndo := false }

/-- A deleted, non-undone Announce that the `index` view serves but
`GET /outbox` filters out. -/
def deletedAnnounceRec : PRec :=
  { oid := 2, typ := "Announce", objTyp := "", inReplyTo := none,
    published := 0, metaDeleted := true, metaUndo := false }

/-- C5 counterexample: the HTML `index` filter and the protocol `GET /outbox`
filter select different sets — a non-deleted Like is served by `/outbox` but
not by `index`, and a deleted non-undone Announce is served by `index` but
not by `/outbox`. -/
theorem c5_counterexample_filters_disagree :
    (outboxGetQ likeRec = true ∧ indexFullFilter likeRec = false)
      ∧ (indexFullFilter deletedAnnounceRec = true
          ∧ outboxGetQ deletedAnnounceRec = false) := by
  decide

/-- C5 (amended): the two read paths apply different predicates. `GET /outbox`
keeps every record with `meta.deleted` false; `index` keeps only non-deleted
top-level Create-Notes plus non-undone Announces (the Announce branch ignores
`meta.deleted`); each path serves records the other excludes. -/
theorem c5_amended_filters_characterization :
    (∀ r : PRec, outboxGetQ r = !r.metaDeleted)
      ∧ (∀ r : PRec, indexFullFilter r = true ↔
          ((r.typ = "Create" ∧ r.objTyp = "Note" ∧ r.inReplyTo = none
              ∧ r.metaDeleted = false)
            ∨ (r.typ = "Announce" ∧ r.metaUndo = false)))
      ∧ (∃ r : PRec, indexFullFilter r = true ∧ outboxGetQ r = false)
      ∧ (∃ r : PRec, outboxGetQ r = true ∧ indexFullFilter r = false) := by
  refine ⟨?_, ?_, ⟨deletedAnnounceRec, by decide⟩, ⟨likeRec, by decide⟩⟩
  · intro r
    unfold outboxGetQ
    cases r.metaDeleted <;> rfl
  · intro r
    simp [indexFullFilter, indexBaseQ, announceUndoQ, and_assoc]

/-- Equation form of `findPage`. -/
theorem findPage_eq (baseQ orQ : PRec → Bool) (key : PRec → Nat) (limit : Nat)
    (db : List PRec) (cursor : Option Nat) :
    findPage baseQ orQ key limit db cursor =
      (mongoFindSortLimit (pageQuery baseQ orQ cursor) key limit db,
        if !(mongoFindSortLimit (pageQuery baseQ orQ cursor) key limit db).isEmpty
            && (mongoFindSortLimit (pageQuery baseQ orQ cursor) key limit db).length == limit
        then ((mongoFindSortLimit (pageQuery baseQ orQ cursor) key limit db).getLast?).map (·.oid)
        else none) := rfl

/-- Repeatedly following `next_cursor`, as the spec's round-trip property
describes: fetch a page and, while a next cursor comes back, fetch the next
page with it, concatenating the item lists.  Fuel-bounded; the theorems below
supply fuel that is always sufficient. -/
def pagesAllAux (baseQ orQ : PRec → Bool) (key : PRec → Nat) (limit : Nat)
    (db : List PRec) : Nat → Option Nat → List PRec
  | 0, _ => []
  | fuel + 1, cursor =>
    let page := findPage baseQ orQ key limit db cursor
    match page.2 with
    | none => page.1
    | some c => page.1 ++ pagesAllAux baseQ orQ key limit db fuel (some c)

/-- In a strictly descending list, the elements with key below the last
element of `take n` are exactly the elements of `drop n`. -/
theorem filter_lt_getLast_take_eq_drop :
    ∀ (M : List PRec) (n : Nat) (m : PRec),
      M.Pairwise (fun a b => b.oid < a.oid) →
      (M.take n).getLast? = some m →
      M.filter (fun r => decide (r.oid < m.oid)) = M.drop n := by
  intro M
  induction M with
  | nil => intro n m _ hl; simp at hl
  | cons a as ih =>
    intro n m hp hl
    rcases List.pairwise_cons.mp hp with ⟨ha, has⟩
    cases n with
    | zero => simp at hl
    | succ k =>
      rw [List.take_succ_cons] at hl
      cases htk : as.take k with
      | nil =>
        rw [htk] at hl
        simp only [List.getLast?] at hl
        have hma : a = m := by simpa using hl
        subst hma
        rcases List.take_eq_nil_iff.mp htk with hk | has0
        · subst hk
          have hfa : decide (a.oid < a.oid) = false := by simp
          have hfas : as.filter (fun r => decide (r.oid < a.oid)) = as :=
            List.filter_eq_self.mpr (fun z hz => by simpa using ha z hz)
          simp [List.filter_cons, hfa, hfas]
        · subst has0
          simp
      | cons w ws =>
        rw [htk] at hl
        rw [List.getLast?_cons_cons] at hl
        rw [← htk] at hl
        have hmtk : m ∈ as.take k := List.mem_of_getLast?_eq_some hl
        have hmas : m ∈ as := (List.take_sublist k as).subset hmtk
        have hma : m.oid < a.oid := ha m hmas
        have hfa : decide (a.oid < m.oid) = false := by
          simp
          omega
        rw [List.drop_succ_cons, List.filter_cons, hfa]
        simp only [Bool.false_eq_true, if_neg]
        exact ih k m has hl

/-- Round trip of the cursor pagination loop: when no record matches the
cursor-free `$or` branch and the `_id` keys are distinct, following
`next_cursor` to exhaustion reproduces exactly the base-filtered dataset in
descending `_id` order. -/
theorem pagesAllAux_round_trip (baseQ orQ : PRec → Bool) (limit : Nat)
    (db : List PRec) (hlim : 0 < limit)
    (horQ : ∀ r ∈ db, orQ r = false)
    (hnd : ((db.filter baseQ).map (fun r => r.oid)).Nodup) :
    ∀ (fuel : Nat) (cursor : Option Nat),
      ((sortDescBy (fun r => r.oid) (db.filter baseQ)).filter (belowCursor cursor)).length < fuel →
      pagesAllAux baseQ orQ (fun r => r.oid) limit db fuel cursor =
        (sortDescBy (fun r => r.oid) (db.filter baseQ)).filter (belowCursor cursor) := by
  have hLperm := perm_sortDescBy (fun r : PRec => r.oid) (db.filter baseQ)
  have hLnd : ((sortDescBy (fun r : PRec => r.oid) (db.filter baseQ)).map
      (fun r => r.oid)).Nodup := ((hLperm.map (fun r => r.oid)).nodup_iff).mpr hnd
  have hLsorted : (sortDescBy (fun r : PRec => r.oid) (db.filter baseQ)).Pairwise
      (fun a b => b.oid < a.oid) :=
    pairwise_lt_of_pairwise_le_nodup _ _ (pairwise_sortDescBy _ _) hLnd
  have hitems : ∀ cursor : Option Nat,
      mongoFindSortLimit (pageQuery baseQ orQ cursor) (fun r => r.oid) limit db =
        ((sortDescBy (fun r => r.oid) (db.filter baseQ)).filter (belowCursor cursor)).take limit := by
    intro cursor
    unfold mongoFindSortLimit
    have h1 : db.filter (pageQuery baseQ orQ cursor) =
        (db.filter baseQ).filter (belowCursor cursor) := by
      rw [List.filter_filter]
      apply List.filter_congr
      intro r hr
      simp [pageQuery, horQ r hr, Bool.and_comm]
    rw [h1, ← filter_sortDescBy]
  intro fuel
  induction fuel with
  | zero => intro cursor h; omega
  | succ fuel ih =>
    intro cursor h
    have hfp : findPage baseQ orQ (fun r => r.oid) limit db cursor =
        (((sortDescBy (fun r => r.oid) (db.filter baseQ)).filter (belowCursor cursor)).take limit,
          if !(((sortDescBy (fun r => r.oid) (db.filter baseQ)).filter (belowCursor cursor)).take limit).isEmpty
              && (((sortDescBy (fun r => r.oid) (db.filter baseQ)).filter (belowCursor cursor)).take limit).length == limit
          then ((((sortDescBy (fun r => r.oid) (db.filter baseQ)).filter (belowCursor cursor)).take limit).getLast?).map (·.oid)
          else none) := by
      rw [findPage_eq, hitems cursor]
    set L := sortDescBy (fun r : PRec => r.oid) (db.filter baseQ) with hLdef
    set M := L.filter (belowCursor cursor) with hMdef
    rcases Nat.lt_or_ge M.length limit with hM | hM
    · -- short page: this is the last page
      have htake : M.take limit = M := List.take_of_length_le (Nat.le_of_lt hM)
      have hcond : (!(M.take limit).isEmpty && (M.take limit).length == limit) = false := by
        cases hb : ((M.take limit).length == limit) with
        | false => simp [hb]
        | true =>
          exfalso
          have := beq_iff_eq.mp hb
          rw [htake] at this
          omega
      simp only [pagesAllAux, hfp, hcond, if_neg Bool.false_ne_true]
      exact htake
    · -- full page: a next cursor is produced
      have hlen : (M.take limit).length = limit := by
        rw [List.length_take]
        omega
      have hne : M.take limit ≠ [] := by
        intro hnil
        rw [hnil] at hlen
        simp at hlen
        omega
      obtain ⟨m, hm⟩ : ∃ m, (M.take limit).getLast? = some m := by
        have := List.getLast?_isSome.mpr hne
        exact Option.isSome_iff_exists.mp this
      have hcond : (!(M.take limit).isEmpty && (M.take limit).length == limit) = true := by
        simp [List.isEmpty_iff, hne, hlen]
      have hmM : m ∈ M := (List.take_sublist _ _).subset (List.mem_of_getLast?_eq_some hm)
      have hbm : belowCursor cursor m = true := List.of_mem_filter hmM
      have hMs : M.Pairwise (fun a b => b.oid < a.oid) :=
        List.Pairwise.sublist (List.filter_sublist _) hLsorted
      have hdrop : M.filter (fun r => decide (r.oid < m.oid)) = M.drop limit :=
        filter_lt_getLast_take_eq_drop M limit m hMs hm
      have hMnext : L.filter (belowCursor (some m.oid)) = M.drop limit := by
        have h2 : L.filter (belowCursor (some m.oid)) =
            M.filter (fun r => decide (r.oid < m.oid)) := by
          rw [hMdef, List.filter_filter]
          apply List.filter_congr
          intro r _
          cases hd : decide (r.oid < m.oid) with
          | false => simp [belowCursor, hd]
          | true =>
            have hr : r.oid < m.oid := of_decide_eq_true hd
            cases cursor with
            | none => simp [belowCursor, hd]
            | some c =>
              have hmc : m.oid < c := of_decide_eq_true hbm
              simp only [belowCursor]
              rw [hd]
              simp
              omega
        rw [h2, hdrop]
      have hfuel2 : (L.filter (belowCursor (some m.oid))).length < fuel := by
        rw [hMnext, List.length_drop]
        omega
      simp only [pagesAllAux, hfp, hcond, if_pos, hm]
      rw [show Option.map (fun r : PRec => r.oid) (some m) = some m.oid from rfl]
      show List.take limit M
          ++ pagesAllAux baseQ orQ (fun r => r.oid) limit db fuel (some m.oid) = M
      rw [ih (some m.oid) hfuel2, hMnext]
      exact List.take_append_drop limit M

/-- C4 (amended): for the `index` and `with_replies` paginated views, if no
record of the dataset matches the cursor-free Announce `$or` branch and the
`_id` keys are distinct, then concatenating all pages obtained by starting
with no cursor and repeatedly passing `next_cursor` reproduces exactly the
base-filtered set in descending `_id` order — no record duplicated, none
omitted.  (When Announce-branch records are present the round trip fails:
they reappear on every page, see the counterexample.) -/
theorem c4_amended_round_trip (db : List PRec)
    (h1 : ∀ r ∈ db, announceUndoQ r = false)
    (h2 : (db.map (fun r => r.oid)).Nodup) :
    pagesAllAux indexBaseQ announceUndoQ (fun r => r.oid) 50 db (db.length + 1) none
        = sortDescBy (fun r => r.oid) (db.filter indexBaseQ)
      ∧ pagesAllAux withRepliesBaseQ announceUndoQ (fun r => r.oid) 50 db (db.length + 1) none
        = sortDescBy (fun r => r.oid) (db.filter withRepliesBaseQ) := by
  have hftrue : ∀ (l : List PRec), l.filter (belowCursor none) = l := fun l =>
    List.filter_eq_self.mpr (fun a _ => rfl)
  constructor
  · have hnd1 : ((db.filter indexBaseQ).map (fun r : PRec => r.oid)).Nodup :=
      List.Nodup.sublist ((List.filter_sublist _).map (fun r : PRec => r.oid)) h2
    have hfuel : ((sortDescBy (fun r : PRec => r.oid)
        (db.filter indexBaseQ)).filter (belowCursor none)).length < db.length + 1 := by
      rw [hftrue]
      have hp := (perm_sortDescBy (fun r : PRec => r.oid) (db.filter indexBaseQ)).length_eq
      have hf := List.length_filter_le indexBaseQ db
      omega
    have := pagesAllAux_round_trip indexBaseQ announceUndoQ 50 db (by omega) h1 hnd1
      (db.length + 1) none hfuel
    rwa [hftrue] at this
  · have hnd1 : ((db.filter withRepliesBaseQ).map (fun r : PRec => r.oid)).Nodup :=
      List.Nodup.sublist ((List.filter_sublist _).map (fun r : PRec => r.oid)) h2
    have hfuel : ((sortDescBy (fun r : PRec => r.oid)
        (db.filter withRepliesBaseQ)).filter (belowCursor none)).length < db.length + 1 := by
      rw [hftrue]
      have hp := (perm_sortDescBy (fun r : PRec => r.oid) (db.filter withRepliesBaseQ)).length_eq
      have hf := List.length_filter_le withRepliesBaseQ db
      omega
    have := pagesAllAux_round_trip withRepliesBaseQ announceUndoQ 50 db (by omega) h1 hnd1
      (db.length + 1) none hfuel
    rwa [hftrue] at this

/-- A small dataset of three top-level Create-Note records (distinct `_id`s,
no Announce records). -/
def noteBatch3 : List PRec :=
  [{ oid := 2, typ := "Create", objTyp := "Note", inReplyTo := none,
     published := 0, metaDeleted := false, metaUndo := false },
   { oid := 5, typ := "Create", objTyp := "Note", inReplyTo := none,
     published := 1, metaDeleted := false, metaUndo := false },
   { oid := 3, typ := "Create", objTyp := "Note", inReplyTo := none,
     published := 2, metaDeleted := false, metaUndo := false }]

/-- Witness for `c4_amended_round_trip` at the concrete dataset `noteBatch3`. -/
theorem c4_amended_round_trip_witness :
    (∀ r ∈ noteBatch3, announceUndoQ r = false)
      ∧ (noteBatch3.map (fun r => r.oid)).Nodup
      ∧ (pagesAllAux indexBaseQ announceUndoQ (fun r => r.oid) 50 noteBatch3
            (noteBatch3.length + 1) none
          = sortDescBy (fun r => r.oid) (noteBatch3.filter indexBaseQ)
        ∧ pagesAllAux withRepliesBaseQ announceUndoQ (fun r => r.oid) 50 noteBatch3
            (noteBatch3.length + 1) none
          = sortDescBy (fun r => r.oid) (noteBatch3.filter withRepliesBaseQ)) :=
  ⟨by decide, by decide, c4_amended_round_trip noteBatch3 (by decide) (by decide)⟩

/-- 51 non-undone Announce records with `_id`s 1..51: one more than the page
limit of `index`. -/
def annBatch : List PRec :=
  (List.range 51).map (fun i =>
    { oid := i + 1, typ := "Announce", objTyp := "", inReplyTo := none,
      published := 0, metaDeleted := false, metaUndo := false })

/-- The Announce record with the highest `_id` in `annBatch`. -/
def annTop : PRec :=
  { oid := 51, typ := "Announce", objTyp := "", inReplyTo := none,
    published := 0, metaDeleted := false, metaUndo := false }

/-- C4 counterexample: with 51 Announce records, the first `index` page is
full and yields `next_cursor = 2`, yet the second page (cursor 2) contains
the very same top record again — the concatenation of pages following
`next_cursor` duplicates records, so the claimed round trip fails. -/
theorem c4_counterexample_announce_repeats :
    (index_page annBatch none).snd = some 2
      ∧ annTop ∈ (index_page annBatch none).fst
      ∧ annTop ∈ (index_page annBatch (some 2)).fst := by
  decide

/-! ## API authentication (`_api_required` / `api_required`, app.py:254-283)

`_api_required` first honours a login session (with a CSRF check for
non-GET/HEAD); otherwise it takes the token from the `Authorization` header
with every `"Bearer "` occurrence removed (Python `str.replace`), falling
back to the `access_token` form field, and only runs `JWT.loads` — the sole
check that can raise `BadSignature` — when the token differs from the
hard-coded literal `'xyugavnomuravej'` (app.py:268).  The decorator
`api_required` turns `BadSignature` into a 401 and otherwise runs the
endpoint; the list of endpoints wrapped by it is `api_required_endpoints`.
-/

/-- If `pat` is a prefix of the character list, return the remainder. -/
def dropOcc : List Char → List Char → Option (List Char)
  | [], rest => some rest
  | _, [] => none
  | p :: ps, c :: cs => if p = c then dropOcc ps cs else none

/-- Remove every non-overlapping, left-to-right occurrence of `pat`: the
behaviour of Python `s.replace(pat, "")`.  Fuel-bounded; `length + 1` fuel
always suffices because every step consumes at least one character. -/
def removeOccAux (pat : List Char) : Nat → List Char → List Char
  | 0, s => s
  | _ + 1, [] => []
  | fuel + 1, c :: cs =>
    match dropOcc pat (c :: cs) with
    | some rest => removeOccAux pat fuel rest
    | none => c :: removeOccAux pat fuel cs

/-- Python `s.replace(pat, "")`. -/
def pyReplaceEmpty (pat s : String) : String :=
  String.mk (removeOccAux pat.toList (s.toList.length + 1) s.toList)

/-- The hard-coded bearer token compared against at app.py:268. -/
def hardcodedToken : String := "xyugavnomuravej"

/-- The disjoint outcomes of `_api_required`: which check authorized the
request (or which failure was raised). -/
inductive ApiAuthz
  | viaSession
  | viaStaticToken
  | viaJwt (payload : String)
  | csrfRejected
  | badSignature
deriving DecidableEq

/-- The request data `_api_required` reads: session flag, whether the method
is GET/HEAD, the CSRF validation outcome, the `Authorization` header (empty
string when absent, as `headers.get("Authorization", "")`), and the
`access_token` form field. -/
structure ApiReq where
  loggedIn : Bool
  isGetOrHead : Bool
  csrfOk : Bool
  authHeader : String
  accessTokenForm : String

/-- `_api_required` (app.py:254-270).  `jwtLoads` is the external
`JWT.loads` verifier (`none` = raises `BadSignature`); it is a parameter so
that theorems can quantify over every possible verifier. -/
def api_required_check (jwtLoads : String → Option String) (req : ApiReq) : ApiAuthz :=
  if req.loggedIn then
    if !req.isGetOrHead && !req.csrfOk then .csrfRejected else .viaSession
  else
    let token0 := pyReplaceEmpty "Bearer " req.authHeader
    let token := if token0 == "" then req.accessTokenForm else token0
    if token != hardcodedToken then
      match jwtLoads token with
      | none => .badSignature
      | some p => .viaJwt p
    else .viaStaticToken

/-- The `api_required` decorator (app.py:273-283): `BadSignature` becomes a
401, a CSRF failure propagates as an error; any other outcome runs the
wrapped endpoint. -/
def api_required_allows (jwtLoads : String → Option String) (req : ApiReq) : Bool :=
  match api_required_check jwtLoads req with
  | .csrfRejected => false
  | .badSignature => false
  | _ => true

/-- The endpoints wrapped with `@api_required` in app.py. -/
def api_required_endpoints : List String :=
  ["api_delete", "api_boost", "api_like", "api_undo", "api_new_note",
   "api_block", "api_follow", "api_upload", "api_debug", "api_stream"]

/-- C1: there is a fixed bearer-token string (`'xyugavnomuravej'`) such that
any request carrying it — via the `Authorization` header (Bearer-stripped) or
the `access_token` form field — is authorized by `_api_required` through the
static-token branch, without any session and regardless of the behaviour of
the `JWT.loads` verifier (the theorem holds for *every* `jwtLoads`, including
one that rejects all tokens, so no JWT signature verification takes place);
consequently `api_required` runs the wrapped endpoint. -/
theorem c1_hardcoded_token_bypasses_jwt (jwtLoads : String → Option String)
    (req : ApiReq) (hsession : req.loggedIn = false)
    (htok : pyReplaceEmpty "Bearer " req.authHeader = hardcodedToken
      ∨ (pyReplaceEmpty "Bearer " req.authHeader = ""
          ∧ req.accessTokenForm = hardcodedToken)) :
    api_required_check jwtLoads req = .viaStaticToken
      ∧ api_required_allows jwtLoads req = true := by
  have hcheck : api_required_check jwtLoads req = .viaStaticToken := by
    unfold api_required_check
    rw [hsession]
    rcases htok with h1 | ⟨h1, h2⟩
    · rw [h1]
      simp [hardcodedToken]
    · rw [h1, h2]
      simp [hardcodedToken]
  refine ⟨hcheck, ?_⟩
  unfold api_required_allows
  rw [hcheck]

/-- A request carrying the hard-coded token in the Authorization header,
with no session. -/
def c1Req : ApiReq :=
  { loggedIn := false, isGetOrHead := false, csrfOk := false,
    authHeader := "Bearer xyugavnomuravej", accessTokenForm := "" }

/-- A `JWT.loads` that rejects every token. -/
def rejectAllJwt : String → Option String := fun _ => none

/-- Witness for `c1_hardcoded_token_bypasses_jwt`: the concrete request
`c1Req` under the reject-everything verifier is authorized. -/
theorem c1_hardcoded_token_bypasses_jwt_witness :
    c1Req.loggedIn = false
      ∧ pyReplaceEmpty "Bearer " c1Req.authHeader = hardcodedToken
      ∧ (api_required_check rejectAllJwt c1Req = .viaStaticToken
          ∧ api_required_allows rejectAllJwt c1Req = true) :=
  ⟨rfl, by decide,
    c1_hardcoded_token_bypasses_jwt rejectAllJwt c1Req rfl (Or.inl (by decide))⟩

/-! ## Inbound delivery (`POST /inbox`, app.py:1120-1168) -/

/-- Response body of the inbox POST handler: `Response(status=201)` has an
empty body; the 422 case carries the JSON error object. -/
inductive IBody
  | empty
  | errorJson (msg : String)
deriving DecidableEq

/-- An HTTP response of the inbox POST handler. -/
structure IResp where
  status : Nat
  body : IBody
deriving DecidableEq

/-- `POST /inbox` (app.py:1139-1168).  `verifyOk` is the outcome of the
external `verify_request` (any exception or a `False` return count as
failure); `fetchIri` is the external `get_backend().fetch_iri` (`none` =
raised).  Returns the response together with the payload handed to
`INBOX.post` (parsing/side-effect application is assumed to succeed, as the
claim only covers that case). -/
def inbox_post (verifyOk : Bool) (fetchIri : String → Option String)
    (data dataId : String) : IResp × Option String :=
  if verifyOk then (⟨201, .empty⟩, some data)
  else
    match fetchIri dataId with
    | some fetched => (⟨201, .empty⟩, some fetched)
    | none =>
      (⟨422, .errorJson
          "failed to verify request (using HTTP signatures or fetching the IRI)"⟩,
        none)

/-- C2: for inbound `POST /inbox` deliveries — if signature verification
fails and the re-fetch of the activity's `id` IRI succeeds, the fetched
representation replaces the delivered body and processing continues to a 201
with empty body; if verification and the fetch both fail, the handler stops
with a 422 and a JSON error body; if processing succeeds the response is a
201 with empty body (also in the verified case, where the delivered body is
processed). -/
theorem c2_inbox_verify_fetch_fallback (verifyOk : Bool)
    (fetchIri : String → Option String) (data dataId fetched : String) :
    (verifyOk = false → fetchIri dataId = some fetched →
        inbox_post verifyOk fetchIri data dataId = (⟨201, .empty⟩, some fetched))
      ∧ (verifyOk = false → fetchIri dataId = none →
          inbox_post verifyOk fetchIri data dataId =
            (⟨422, .errorJson
                "failed to verify request (using HTTP signatures or fetching the IRI)"⟩,
              none))
      ∧ (verifyOk = true →
          inbox_post verifyOk fetchIri data dataId = (⟨201, .empty⟩, some data)) := by
  refine ⟨?_, ?_, ?_⟩
  · intro hv hf
    simp [inbox_post, hv, hf]
  · intro hv hf
    simp [inbox_post, hv, hf]
  · intro hv
    simp [inbox_post, hv]

/-- Witness for `c2_inbox_verify_fetch_fallback`: the three scenarios at
concrete inputs. -/
theorem c2_inbox_verify_fetch_fallback_witness :
    inbox_post false (fun _ => some "fetchedActivity") "deliveredBody" "id1"
        = (⟨201, .empty⟩, some "fetchedActivity")
      ∧ inbox_post false (fun _ => none) "deliveredBody" "id1"
          = (⟨422, .errorJson
              "failed to verify request (using HTTP signatures or fetching the IRI)"⟩,
            none)
      ∧ inbox_post true (fun _ => none) "deliveredBody" "id1"
          = (⟨201, .empty⟩, some "deliveredBody") :=
  ⟨(c2_inbox_verify_fetch_fallback false (fun _ => some "fetchedActivity")
      "deliveredBody" "id1" "fetchedActivity").1 rfl rfl,
   (c2_inbox_verify_fetch_fallback false (fun _ => none)
      "deliveredBody" "id1" "x").2.1 rfl rfl,
   (c2_inbox_verify_fetch_fallback true (fun _ => none)
      "deliveredBody" "id1" "x").2.2 rfl⟩

/-! ## Tombstones (`outbox_detail`, `note_by_id`, app.py:572-579, 757-765) -/

/-- The outbox-document fields these two views read. -/
structure ODoc where
  remoteId : String
  metaDeleted : Bool
  activity : String
deriving DecidableEq

/-- What a response of these views carries: the tombstone representation of
the object (`obj.get_object().get_tombstone()`), the activity JSON
(`activity_from_doc`), or the rendered note page. -/
inductive OPayload
  | tombstoneOf (activity : String)
  | activityJson (activity : String)
  | noteHtml (activity : String)
deriving DecidableEq

/-- An HTTP response of these views. -/
structure OResp where
  status : Nat
  payload : Option OPayload
deriving DecidableEq

/-- `GET /outbox/<item_id>` (app.py:757-765).  `url` is
`back.activity_url(item_id)`.  When no document matches, the Python code
dereferences `None` and crashes (modelled as a bare 500). -/
def outbox_detail (db : List ODoc) (url : String) : OResp :=
  match db.find? (fun d => d.remoteId == url) with
  | none => ⟨500, none⟩
  | some doc =>
    if doc.metaDeleted then ⟨410, some (.tombstoneOf doc.activity)⟩
    else ⟨200, some (.activityJson doc.activity)⟩

/-- `GET /note/<note_id>` (app.py:572-579): 404 when absent, 410 (plain
abort, no body) when `meta.deleted`, otherwise the rendered note. -/
def note_by_id (db : List ODoc) (url : String) : OResp :=
  match db.find? (fun d => d.remoteId == url) with
  | none => ⟨404, none⟩
  | some doc =>
    if doc.metaDeleted then ⟨410, none⟩
    else ⟨200, some (.noteHtml doc.activity)⟩

/-- C7: every stored record with `meta.deleted = true` is served as a
tombstone and never as live content — `outbox_detail` answers 410 with the
object's tombstone representation, and `note_by_id` answers 410 instead of
rendering the note. -/
theorem c7_deleted_served_as_tombstone (db : List ODoc) (url : String)
    (doc : ODoc) (hfind : db.find? (fun d => d.remoteId == url) = some doc)
    (hdel : doc.metaDeleted = true) :
    outbox_detail db url = ⟨410, some (.tombstoneOf doc.activity)⟩
      ∧ note_by_id db url = ⟨410, none⟩ := by
  unfold outbox_detail note_by_id
  rw [hfind]
  simp [hdel]

/-- A deleted outbox document. -/
def deletedDoc : ODoc :=
  { remoteId := "https://example.com/outbox/abc", metaDeleted := true,
    activity := "noteA" }

/-- Witness for `c7_deleted_served_as_tombstone` at a concrete store. -/
theorem c7_deleted_served_as_tombstone_witness :
    [deletedDoc].find? (fun d => d.remoteId == "https://example.com/outbox/abc")
        = some deletedDoc
      ∧ deletedDoc.metaDeleted = true
      ∧ (outbox_detail [deletedDoc] "https://example.com/outbox/abc"
            = ⟨410, some (.tombstoneOf deletedDoc.activity)⟩
        ∧ note_by_id [deletedDoc] "https://example.com/outbox/abc" = ⟨410, none⟩) :=
  ⟨by decide, rfl,
    c7_deleted_served_as_tombstone [deletedDoc] "https://example.com/outbox/abc"
      deletedDoc (by decide) rfl⟩

/-! ## Undo (`api_undo`, app.py:1051-1066) -/

/-- The outbox-document fields `api_undo` reads (plus the `meta.undo` flag,
which it notably does *not* read). -/
structure UDoc where
  remoteId : String
  metaUndo : Bool
  activity : String
deriving DecidableEq

/-- What `api_undo` does: raise `ActivityNotFoundError`, or build and post a
fresh Undo of the stored activity via `OUTBOX.post` (which re-applies the
Undo side effects downstream). -/
inductive UndoOutcome
  | notFound
  | posted (undoneActivity : String)
deriving DecidableEq

/-- `POST /api/undo` (app.py:1051-1066): look the target up under either
remote-id form, 404 when absent, and otherwise *unconditionally* build and
post a new Undo — the code never consults `meta.undo` (the FIXME at
app.py:1062 records the missing already-undone check). -/
def api_undo (outbox : List UDoc) (urlForm oid : String) : UndoOutcome :=
  match outbox.find? (fun d => d.remoteId == urlForm || d.remoteId == oid) with
  | none => .notFound
  | some doc => .posted doc.activity

/-- A Like activity whose Undo has already been applied (`meta.undo = true`). -/
def alreadyUndoneLike : UDoc :=
  { remoteId := "https://example.com/outbox/like1", metaUndo := true,
    activity := "like1" }

/-- C8 (code bug evidence): applying Undo to an already-undone target is not
a no-op — `api_undo` never reads `meta.undo` and posts a second Undo of the
same activity, whose side effects (e.g. a counter decrement) are re-applied
downstream; the spec and the source's own FIXME (app.py:1062) both call for
an idempotent no-op instead. -/
theorem c8_second_undo_posted_again :
    api_undo [alreadyUndoneLike] "https://example.com/outbox/like1" "like1"
        = .posted "like1"
      ∧ alreadyUndoneLike.metaUndo = true := by
  decide

/-! ## Duplicate Follow / Block (`api_follow`, `api_block`,
app.py:1294-1323) -/

/-- A `following` collection document: keyed by remote actor, carrying the
originating Follow activity. -/
structure FollowingDoc where
  remoteActor : String
  activityId : String
deriving DecidableEq

/-- The outbox-document fields `api_block`'s duplicate query reads. -/
structure BlockDoc where
  typ : String
  obj : String
  metaUndo : Bool
  activityId : String
deriving DecidableEq

/-- `POST /api/follow` (app.py:1311-1323): if a `following` record for the
actor exists, answer with the existing activity's id and post nothing;
otherwise post a fresh Follow (`newId`).  Result: (response activity id,
activity posted to the outbox if any). -/
def api_follow (following : List FollowingDoc) (actor newId : String) :
    String × Option String :=
  match following.find? (fun d => d.remoteActor == actor) with
  | some existing => (existing.activityId, none)
  | none => (newId, some newId)

/-- `POST /api/block` (app.py:1294-1308): if a non-undone Block of the actor
exists in the outbox, answer with its activity id and post nothing; otherwise
post a fresh Block (`newId`). -/
def api_block (outbox : List BlockDoc) (actor newId : String) :
    String × Option String :=
  match outbox.find?
      (fun d => d.typ == "Block" && d.obj == actor && d.metaUndo == false) with
  | some existing => (existing.activityId, none)
  | none => (newId, some newId)

/-- C9: a duplicate Follow or Block request succeeds by returning the
existing record's activity id, posts no new activity (so the store is left
unchanged — all store mutations of these endpoints go through
`OUTBOX.post`), and raises no error. -/
theorem c9_duplicate_follow_block_return_existing
    (following : List FollowingDoc) (outbox : List BlockDoc)
    (actor newId : String) (exF : FollowingDoc) (exB : BlockDoc)
    (hf : following.find? (fun d => d.remoteActor == actor) = some exF)
    (hb : outbox.find?
        (fun d => d.typ == "Block" && d.obj == actor && d.metaUndo == false)
      = some exB) :
    api_follow following actor newId = (exF.activityId, none)
      ∧ api_block outbox actor newId = (exB.activityId, none) := by
  unfold api_follow api_block
  rw [hf, hb]
  exact ⟨rfl, rfl⟩

/-- An existing Follow relationship record. -/
def existingFollow : FollowingDoc :=
  { remoteActor := "https://remote.example/actor", activityId := "follow1" }

/-- An existing non-undone Block record. -/
def existingBlock : BlockDoc :=
  { typ := "Block", obj := "https://remote.example/actor", metaUndo := false,
    activityId := "block1" }

/-- Witness for `c9_duplicate_follow_block_return_existing` at concrete
stores. -/
theorem c9_duplicate_follow_block_return_existing_witness :
    [existingFollow].find?
        (fun d => d.remoteActor == "https://remote.example/actor")
        = some existingFollow
      ∧ [existingBlock].find?
          (fun d => d.typ == "Block" && d.obj == "https://remote.example/actor"
            && d.metaUndo == false) = some existingBlock
      ∧ (api_follow [existingFollow] "https://remote.example/actor" "follow2"
            = (existingFollow.activityId, none)
        ∧ api_block [existingBlock] "https://remote.example/actor" "block2"
            = (existingBlock.activityId, none)) :=
  ⟨by decide, by decide,
    c9_duplicate_follow_block_return_existing [existingFollow] [existingBlock]
      "https://remote.example/actor" "follow2" existingFollow existingBlock
      (by decide) (by decide)⟩

/-! ## Thread builder (`_build_thread`, app.py:518-569)

A `TRec` holds the fields `_build_thread` reads from a stored record:
`activity.object.id`, `activity.object.inReplyTo`, `activity.object.published`
(modelled as `Nat`, ordered like the ISO strings), `meta.thread_root_parent`
and the activity `type`.
-/

structure TRec where
  objId : String
  inReplyTo : Option String
  published : Nat
  threadRootParent : Option String
  typ : String
deriving DecidableEq

/-- Stable insertion (ascending by `key`), mirroring Python `sorted`: the new
element passes every strictly smaller element. -/
def insertAscBy (key : α → Nat) (x : α) : List α → List α
  | [] => [x]
  | y :: ys => if key y < key x then y :: insertAscBy key x ys else x :: y :: ys

/-- Stable sort, ascending by `key`: Python `sorted(..., key=published)`. -/
def sortAscBy (key : α → Nat) : List α → List α
  | [] => []
  | x :: xs => insertAscBy key x (sortAscBy key xs)

/-- The `$or` query of `_build_thread` (app.py:523-525): records with
`meta.thread_root_parent == root_id` and type `Create`, plus — only when the
requested record itself replies to something — the direct parent record. -/
def threadQuery (rootId : String) (dataInReplyTo : Option String) (r : TRec) : Bool :=
  (r.threadRootParent == some rootId && r.typ == "Create")
    || (match dataInReplyTo with
        | some p => r.objId == p
        | none => false)

/-- The candidate list `replies` before sorting (app.py:528-533): the
requested record itself followed by the query matches of the inbox, outbox
and thread-cache collections. -/
def threadCandidates (data : TRec) (inbox outbox threads : List TRec) : List TRec :=
  let rootId := data.threadRootParent.getD data.objId
  data :: (inbox.filter (threadQuery rootId data.inReplyTo)
    ++ outbox.filter (threadQuery rootId data.inReplyTo)
    ++ threads.filter (threadQuery rootId data.inReplyTo))

/-- The dedup loop of app.py:536-544: keep the first record of each object
id, preserving order (`seen` holds the ids already in `idx`). -/
def dedupByIdAux (seen : List String) : List TRec → List TRec
  | [] => []
  | r :: rs =>
    if r.objId ∈ seen then dedupByIdAux seen rs
    else r :: dedupByIdAux (r.objId :: seen) rs

/-- `replies2` (app.py:534-544): candidates sorted ascending by `published`
(stably, like Python `sorted`), then deduplicated by object id keeping the
first occurrence. -/
def threadNodes (data : TRec) (inbox outbox threads : List TRec) : List TRec :=
  dedupByIdAux [] (sortAscBy (fun r => r.published)
    (threadCandidates data inbox outbox threads))

/-- The `_nodes` children lists built by the loop of app.py:547-552: each
record other than the root is appended, in `replies2` order, to the list of
its `inReplyTo` target. -/
def childrenOf (nodes : List TRec) (rootId : String) (x : String) : List TRec :=
  nodes.filter (fun r => !(r.objId == rootId) && r.inReplyTo == some x)

/-- True when the tree-building loop and the root lookup would *not* raise a
KeyError: every non-root collected record's `inReplyTo` is the object id of
some collected record (a missing or absent `inReplyTo` key raises), and the
root id is among the collected object ids (app.py:551-552, 567). -/
def threadLinksOk (nodes : List TRec) (rootId : String) : Bool :=
  nodes.all (fun r => r.objId == rootId
      || (match r.inReplyTo with
          | some p => nodes.any (fun s => s.objId == p)
          | none => false))
    && nodes.any (fun s => s.objId == rootId)

/-- The recursive `_flatten` of app.py:557-567: emit the node with its
nesting level, then recurse into its `_nodes` children sorted ascending by
`published`, at level + 1.  Fuel-bounded; `nodes.length` fuel is always
sufficient because the children lists place every record under at most one
parent. -/
def flattenThread (nodes : List TRec) (rootId : String) :
    Nat → TRec → Nat → List (TRec × Nat)
  | 0, _, _ => []
  | fuel + 1, node, level =>
    (node, level) ::
      ((sortAscBy (fun r => r.published) (childrenOf nodes rootId node.objId)).map
        (fun c => flattenThread nodes rootId fuel c (level + 1))).flatten

/-- `_build_thread` (app.py:518-569).  `none` models an unhandled `KeyError`
from the tree-building loop (`idx[reply_of]`) or the root lookup
(`idx[root_id]`). -/
def build_thread (data : TRec) (inbox outbox threads : List TRec) :
    Option (List (TRec × Nat)) :=
  let rootId := data.threadRootParent.getD data.objId
  let nodes := threadNodes data inbox outbox threads
  if threadLinksOk nodes rootId then
    match nodes.find? (fun r => r.objId == rootId) with
    | some root => some (flattenThread nodes rootId nodes.length root 0)
    | none => none
  else none

/-- Modelled from the spec (§4.5, claim C6): the pre-order depth-first
traversal of the deduplicated note set from a node — visit the node at its
level, then its replies (grouping on `inReplyTo`) in ascending `published`
order, each one level deeper. -/
def specPreorder (nodes : List TRec) : Nat → TRec → Nat → List (TRec × Nat)
  | 0, _, _ => []
  | fuel + 1, node, level =>
    (node, level) ::
      ((sortAscBy (fun r => r.published)
          (nodes.filter (fun r => r.inReplyTo == some node.objId))).map
        (fun c => specPreorder nodes fuel c (level + 1))).flatten

/-- Modelled from the spec (§4.5, claim C6): the whole thread as the claim
describes it — the pre-order traversal starting at the root id
(`thread_root_parent` if set, else the record's object id) over the sorted,
first-occurrence-deduplicated collected notes. -/
def thread_spec (data : TRec) (inbox outbox threads : List TRec) :
    List (TRec × Nat) :=
  let rootId := data.threadRootParent.getD data.objId
  let nodes := threadNodes data inbox outbox threads
  match nodes.find? (fun r => r.objId == rootId) with
  | some root => specPreorder nodes nodes.length root 0
  | none => []

/-- The collected record a record replies to, if any: `inReplyTo` looked up
among the collected records. -/
def parentIn (nodes : List TRec) (r : TRec) : Option TRec :=
  match r.inReplyTo with
  | none => none
  | some p => nodes.find? (fun s => s.objId == p)

/-- Parent-hop distance to the root: `some n` when following `inReplyTo`
through the collected records reaches the root id in exactly `n` hops
(fuel-bounded). -/
def chainD (nodes : List TRec) (rootId : String) : Nat → TRec → Option Nat
  | 0, _ => none
  | fuel + 1, r =>
    if r.objId == rootId then some 0
    else
      match parentIn nodes r with
      | none => none
      | some pr => (chainD nodes rootId fuel pr).map (· + 1)

/-- Whether a record's `inReplyTo` names no collected record at all (the
KeyError condition of the loop at app.py:551-552, for one record). -/
def noParentInNodes (nodes : List TRec) (r : TRec) : Bool :=
  match r.inReplyTo with
  | none => true
  | some p => nodes.all (fun s => !(s.objId == p))

/-! ### Thread-builder lemmas -/

theorem perm_insertAscBy (key : α → Nat) (x : α) (l : List α) :
    List.Perm (insertAscBy key x l) (x :: l) := by
  induction l with
  | nil => simp [insertAscBy]
  | cons y ys ih =>
    by_cases h : key y < key x
    · simp only [insertAscBy, if_pos h]
      exact (ih.cons y).trans (List.Perm.swap x y ys)
    · simp [insertAscBy, if_neg h]

theorem perm_sortAscBy (key : α → Nat) (l : List α) :
    List.Perm (sortAscBy key l) l := by
  induction l with
  | nil => simp [sortAscBy]
  | cons x xs ih =>
    exact (perm_insertAscBy key x (sortAscBy key xs)).trans (ih.cons x)

theorem mem_sortAscBy (key : α → Nat) (l : List α) (z : α) :
    z ∈ sortAscBy key l ↔ z ∈ l :=
  (perm_sortAscBy key l).mem_iff

theorem dedupByIdAux_subset :
    ∀ (seen : List String) (l : List TRec) (y : TRec),
      y ∈ dedupByIdAux seen l → y ∈ l := by
  intro seen l
  induction l generalizing seen with
  | nil => intro y h; simp [dedupByIdAux] at h
  | cons r rs ih =>
    intro y h
    by_cases hm : r.objId ∈ seen
    · simp only [dedupByIdAux, if_pos hm] at h
      exact List.mem_cons_of_mem r (ih seen y h)
    · simp only [dedupByIdAux, if_neg hm] at h
      rcases List.mem_cons.mp h with rfl | h2
      · exact List.mem_cons_self _ _
      · exact List.mem_cons_of_mem r (ih (r.objId :: seen) y h2)

theorem dedupByIdAux_nodup :
    ∀ (seen : List String) (l : List TRec),
      ((dedupByIdAux seen l).map (fun r => r.objId)).Nodup
        ∧ ∀ s ∈ dedupByIdAux seen l, s.objId ∉ seen := by
  intro seen l
  induction l generalizing seen with
  | nil => simp [dedupByIdAux]
  | cons r rs ih =>
    by_cases hm : r.objId ∈ seen
    · simpa only [dedupByIdAux, if_pos hm] using ih seen
    · rcases ih (r.objId :: seen) with ⟨hnd, hsn⟩
      simp only [dedupByIdAux, if_neg hm]
      constructor
      · rw [List.map_cons]
        refine List.Pairwise.cons ?_ hnd
        intro b hb
        rcases List.mem_map.mp hb with ⟨s, hs, rfl⟩
        have := hsn s hs
        intro hcontra
        exact this (by rw [← hcontra]; exact List.mem_cons_self _ _)
      · intro s hs
        rcases List.mem_cons.mp hs with rfl | hs2
        · exact hm
        · intro hcontra
          exact hsn s hs2 (List.mem_cons_of_mem _ hcontra)

theorem dedupByIdAux_covers :
    ∀ (seen : List String) (l : List TRec) (x : TRec), x ∈ l →
      x.objId ∈ seen ∨ ∃ y ∈ dedupByIdAux seen l, y.objId = x.objId := by
  intro seen l
  induction l generalizing seen with
  | nil => intro x h; simp at h
  | cons r rs ih =>
    intro x hx
    by_cases hm : r.objId ∈ seen
    · simp only [dedupByIdAux, if_pos hm]
      rcases List.mem_cons.mp hx with rfl | hx2
      · exact Or.inl hm
      · exact ih seen x hx2
    · simp only [dedupByIdAux, if_neg hm]
      rcases List.mem_cons.mp hx with rfl | hx2
      · exact Or.inr ⟨_, List.mem_cons_self _ _, rfl⟩
      · rcases ih (r.objId :: seen) x hx2 with hseen | ⟨y, hy, he⟩
        · rcases List.mem_cons.mp hseen with he | hs
          · exact Or.inr ⟨r, List.mem_cons_self _ _, he.symm⟩
          · exact Or.inl hs
        · exact Or.inr ⟨y, List.mem_cons_of_mem _ hy, he⟩

/-- The node list is never empty (it contains the requested record's id) and
its object ids are distinct. -/
theorem threadNodes_nodup (data : TRec) (inbox outbox threads : List TRec) :
    ((threadNodes data inbox outbox threads).map (fun r => r.objId)).Nodup :=
  (dedupByIdAux_nodup [] _).1

/-- Every candidate's object id survives the dedup. -/
theorem threadNodes_covers (data : TRec) (inbox outbox threads : List TRec)
    (x : TRec) (hx : x ∈ threadCandidates data inbox outbox threads) :
    ∃ y ∈ threadNodes data inbox outbox threads, y.objId = x.objId := by
  have hx2 : x ∈ sortAscBy (fun r => r.published)
      (threadCandidates data inbox outbox threads) :=
    (mem_sortAscBy _ _ _).mpr hx
  rcases dedupByIdAux_covers [] _ x hx2 with h | h
  · simp at h
  · exact h

theorem threadNodes_subset (data : TRec) (inbox outbox threads : List TRec)
    (y : TRec) (hy : y ∈ threadNodes data inbox outbox threads) :
    y ∈ threadCandidates data inbox outbox threads :=
  (mem_sortAscBy _ _ _).mp (dedupByIdAux_subset [] _ y hy)

theorem parentIn_some {nodes : List TRec} {r pr : TRec} :
    parentIn nodes r = some pr → pr ∈ nodes ∧ r.inReplyTo = some pr.objId := by
  cases hrep : r.inReplyTo with
  | none => intro h; simp [parentIn, hrep] at h
  | some p =>
    intro h
    simp only [parentIn, hrep] at h
    refine ⟨List.mem_of_find?_eq_some h, ?_⟩
    have hb2 : pr.objId = p := by
      have hb := List.find?_some h
      simpa using hb
    rw [hb2]

/-- `UpChain nodes r q n`: following `inReplyTo` upward through `nodes`,
record `r` reaches record `q` in exactly `n` hops. -/
inductive UpChain (nodes : List TRec) : TRec → TRec → Nat → Prop
  | refl (r : TRec) : UpChain nodes r r 0
  | step {r p q : TRec} {n : Nat} : r.inReplyTo = some p.objId → p ∈ nodes →
      UpChain nodes p q n → UpChain nodes r q (n + 1)

theorem upChain_zero {nodes : List TRec} {a b : TRec}
    (h : UpChain nodes a b 0) : a = b := by
  cases h
  rfl

theorem upChain_compose {nodes : List TRec} {a b c : TRec} {n m : Nat}
    (h1 : UpChain nodes a b n) (h2 : UpChain nodes b c m) :
    UpChain nodes a c (n + m) := by
  induction h1 with
  | refl r => simpa using h2
  | step hs hp hrec ih =>
    have h3 := UpChain.step hs hp (ih h2)
    have harith : ∀ k : Nat, k + m + 1 = k + 1 + m := by omega
    rwa [harith] at h3

theorem nodes_id_inj {nodes : List TRec}
    (hnodup : (nodes.map (fun r => r.objId)).Nodup) {p q : TRec}
    (hp : p ∈ nodes) (hq : q ∈ nodes) (he : p.objId = q.objId) : p = q :=
  List.inj_on_of_nodup_map hnodup hp hq he

theorem upChain_root_fixed {nodes : List TRec} {root q : TRec} {m : Nat}
    (hroot : root.inReplyTo = none) (h : UpChain nodes root q m) :
    q = root ∧ m = 0 := by
  cases h with
  | refl => exact ⟨rfl, rfl⟩
  | step h1 _ _ => rw [hroot] at h1; cases h1

theorem upChain_unique_to_root {nodes : List TRec} {root : TRec}
    (hnodup : (nodes.map (fun r => r.objId)).Nodup)
    (hroot : root.inReplyTo = none) :
    ∀ {r : TRec} {n m : Nat}, UpChain nodes r root n → UpChain nodes r root m →
      n = m := by
  intro r n m h1
  induction h1 generalizing m with
  | refl r0 => intro h2; exact ((upChain_root_fixed hroot h2).2).symm
  | step hs hp hrec ih =>
    intro h2
    cases h2 with
    | refl => rw [hroot] at hs; cases hs
    | step hs2 hp2 hrec2 =>
      have hpe := nodes_id_inj hnodup hp hp2
        (Option.some.inj (hs.symm.trans hs2))
      subst hpe
      rw [ih hroot hrec2]

theorem upChain_linear {nodes : List TRec}
    (hnodup : (nodes.map (fun r => r.objId)).Nodup) :
    ∀ {y a b : TRec} {k1 k2 : Nat}, UpChain nodes y a k1 → UpChain nodes y b k2 →
      k1 ≤ k2 → UpChain nodes a b (k2 - k1) := by
  intro y a b k1 k2 h1
  induction h1 generalizing b k2 with
  | refl r0 => intro h2 _; simpa using h2
  | step hs hp hrec ih =>
    intro h2 hle
    cases h2 with
    | refl => exact absurd hle (by omega)
    | step hs2 hp2 hrec2 =>
      have hpe := nodes_id_inj hnodup hp hp2
        (Option.some.inj (hs.symm.trans hs2))
      subst hpe
      have hh := ih hrec2 (by omega)
      simpa [Nat.succ_sub_succ] using hh

theorem chainD_lt {nodes : List TRec} {rootId : String} :
    ∀ (f : Nat) (r : TRec) (n : Nat), chainD nodes rootId f r = some n → n < f := by
  intro f
  induction f with
  | zero => intro r n h; simp [chainD] at h
  | succ f ih =>
    intro r n h
    simp only [chainD] at h
    by_cases hr : (r.objId == rootId) = true
    · rw [if_pos hr] at h
      simp at h
      omega
    · rw [if_neg hr] at h
      cases hpar : parentIn nodes r with
      | none => simp [hpar] at h
      | some pr =>
        simp only [hpar] at h
        rcases Option.map_eq_some'.mp h with ⟨n0, hn0, rfl⟩
        have := ih pr n0 hn0
        omega

/-- One-step unfolding of `chainD` at successor fuel. -/
theorem chainD_succ (nodes : List TRec) (rootId : String) (fuel : Nat) (r : TRec) :
    chainD nodes rootId (fuel + 1) r =
      if r.objId == rootId then some 0
      else
        match parentIn nodes r with
        | none => none
        | some pr => (chainD nodes rootId fuel pr).map (· + 1) := rfl

theorem chainD_mono_succ {nodes : List TRec} {rootId : String} :
    ∀ (f : Nat) (r : TRec) (n : Nat), chainD nodes rootId f r = some n →
      chainD nodes rootId (f + 1) r = some n := by
  intro f
  induction f with
  | zero => intro r n h; simp [chainD] at h
  | succ f ih =>
    intro r n h
    rw [chainD_succ] at h
    rw [chainD_succ]
    by_cases hr : (r.objId == rootId) = true
    · rw [if_pos hr] at h ⊢
      exact h
    · rw [if_neg hr] at h ⊢
      cases hpar : parentIn nodes r with
      | none => simp [hpar] at h
      | some pr =>
        simp only [hpar] at h ⊢
        rcases Option.map_eq_some'.mp h with ⟨n0, hn0, rfl⟩
        rw [ih pr n0 hn0]
        rfl

theorem chainD_mono {nodes : List TRec} {rootId : String} {f g : Nat}
    (hle : f ≤ g) {r : TRec} {n : Nat} (h : chainD nodes rootId f r = some n) :
    chainD nodes rootId g r = some n := by
  induction hle with
  | refl => exact h
  | step _ ih => exact chainD_mono_succ _ _ _ ih

theorem chainD_upChain {nodes : List TRec} {rootId : String} {root : TRec}
    (hnodup : (nodes.map (fun r => r.objId)).Nodup)
    (hrootm : root ∈ nodes) (hrootid : root.objId = rootId) :
    ∀ (f : Nat) (r : TRec) (n : Nat), r ∈ nodes →
      chainD nodes rootId f r = some n → UpChain nodes r root n := by
  intro f
  induction f with
  | zero => intro r n _ h; simp [chainD] at h
  | succ f ih =>
    intro r n hr h
    simp only [chainD] at h
    by_cases hrid : (r.objId == rootId) = true
    · rw [if_pos hrid] at h
      have hreq : r = root := nodes_id_inj hnodup hr hrootm
        (by rw [hrootid]; exact beq_iff_eq.mp hrid)
      have hn0 : n = 0 := by simpa using h.symm
      subst hreq
      subst hn0
      exact UpChain.refl r
    · rw [if_neg hrid] at h
      cases hpar : parentIn nodes r with
      | none => simp [hpar] at h
      | some pr =>
        simp only [hpar] at h
        rcases Option.map_eq_some'.mp h with ⟨n0, hn0, rfl⟩
        rcases parentIn_some hpar with ⟨hprm, hrep⟩
        exact UpChain.step hrep hprm (ih pr n0 hprm hn0)

/-- Under the root-has-no-reply hypothesis, the code's children lists
(which skip the root id, app.py:549-550) agree with the spec's plain
grouping on `inReplyTo`. -/
theorem childrenOf_eq_spec (nodes : List TRec) (rootId : String)
    (h2 : ∀ r ∈ nodes, r.objId = rootId → r.inReplyTo = none) (x : String) :
    childrenOf nodes rootId x = nodes.filter (fun r => r.inReplyTo == some x) := by
  unfold childrenOf
  apply List.filter_congr
  intro r hrm
  by_cases hid : (r.objId == rootId) = true
  · have hnone := h2 r hrm (beq_iff_eq.mp hid)
    simp [hid, hnone]
  · simp [hid]

theorem flatten_eq_specPreorder (nodes : List TRec) (rootId : String)
    (h2 : ∀ r ∈ nodes, r.objId = rootId → r.inReplyTo = none) :
    ∀ (fuel : Nat) (node : TRec) (level : Nat),
      flattenThread nodes rootId fuel node level =
        specPreorder nodes fuel node level := by
  intro fuel
  induction fuel with
  | zero => intro node level; rfl
  | succ fuel ih =>
    intro node level
    have hfg : (fun c => flattenThread nodes rootId fuel c (level + 1)) =
        (fun c => specPreorder nodes fuel c (level + 1)) :=
      funext (fun c => ih c (level + 1))
    simp only [flattenThread, specPreorder,
      childrenOf_eq_spec nodes rootId h2, hfg]

theorem flatten_fst_mem_nodes (nodes : List TRec) (rootId : String) :
    ∀ (fuel : Nat) (x : TRec) (lvl : Nat) (y : TRec) (m : Nat),
      x ∈ nodes → (y, m) ∈ flattenThread nodes rootId fuel x lvl → y ∈ nodes := by
  intro fuel
  induction fuel with
  | zero => intro x lvl y m _ h; simp [flattenThread] at h
  | succ fuel ih =>
    intro x lvl y m hx h
    simp only [flattenThread, List.mem_cons] at h
    rcases h with he | hj
    · rw [Prod.mk.injEq] at he
      exact he.1 ▸ hx
    · rw [List.mem_flatten] at hj
      rcases hj with ⟨s, hs, hmems⟩
      rcases List.mem_map.mp hs with ⟨c, hc, rfl⟩
      have hcn : c ∈ nodes :=
        List.mem_of_mem_filter ((mem_sortAscBy _ _ _).mp hc)
      exact ih c (lvl + 1) y m hcn hmems

theorem flatten_child_mem (nodes : List TRec) (rootId : String) :
    ∀ (fuel : Nat) (x : TRec) (lvl : Nat) (p : TRec) (m : Nat) (c : TRec),
      (p, m) ∈ flattenThread nodes rootId fuel x lvl →
      c ∈ childrenOf nodes rootId p.objId →
      m + 2 ≤ fuel + lvl →
      (c, m + 1) ∈ flattenThread nodes rootId fuel x lvl := by
  intro fuel
  induction fuel with
  | zero => intro x lvl p m c h _ _; simp [flattenThread] at h
  | succ fuel ih =>
    intro x lvl p m c h hc hfl
    simp only [flattenThread, List.mem_cons] at h ⊢
    rcases h with he | hj
    · rw [Prod.mk.injEq] at he
      rcases he with ⟨he1, he2⟩
      subst he1
      subst he2
      right
      rw [List.mem_flatten]
      refine ⟨flattenThread nodes rootId fuel c (m + 1), ?_, ?_⟩
      · exact List.mem_map.mpr ⟨c, (mem_sortAscBy _ _ _).mpr hc, rfl⟩
      · cases fuel with
        | zero => exact absurd hfl (by omega)
        | succ fuel2 =>
          simp only [flattenThread, List.mem_cons]
          exact Or.inl trivial
    · rcases List.mem_flatten.mp hj with ⟨s, hs, hmems⟩
      rcases List.mem_map.mp hs with ⟨c0, hc0, rfl⟩
      have hrec := ih c0 (lvl + 1) p m c hmems hc (by omega)
      right
      rw [List.mem_flatten]
      exact ⟨_, List.mem_map.mpr ⟨c0, hc0, rfl⟩, hrec⟩

theorem chainD_mem_flatten {nodes : List TRec} {rootId : String} {root : TRec}
    (hnodup : (nodes.map (fun r => r.objId)).Nodup)
    (hrootm : root ∈ nodes) (hrootid : root.objId = rootId) :
    ∀ (n : Nat) (r : TRec), r ∈ nodes →
      chainD nodes rootId nodes.length r = some n →
      (r, n) ∈ flattenThread nodes rootId nodes.length root 0 := by
  intro n
  induction n with
  | zero =>
    intro r hr h
    obtain ⟨N0, hN⟩ : ∃ N0, nodes.length = N0 + 1 := by
      have := List.length_pos.mpr (List.ne_nil_of_mem hr)
      exact ⟨nodes.length - 1, by omega⟩
    rw [hN] at h ⊢
    simp only [chainD] at h
    by_cases hrid : (r.objId == rootId) = true
    · have hreq : r = root := nodes_id_inj hnodup hr hrootm
        (by rw [hrootid]; exact beq_iff_eq.mp hrid)
      subst hreq
      simp only [flattenThread, List.mem_cons]
      exact Or.inl trivial
    · rw [if_neg hrid] at h
      cases hpar : parentIn nodes r with
      | none => simp [hpar] at h
      | some pr =>
        simp only [hpar] at h
        rcases Option.map_eq_some'.mp h with ⟨n0, _, hcontra⟩
        omega
  | succ n ih =>
    intro r hr h
    obtain ⟨N0, hN⟩ : ∃ N0, nodes.length = N0 + 1 := by
      have := List.length_pos.mpr (List.ne_nil_of_mem hr)
      exact ⟨nodes.length - 1, by omega⟩
    have hlt := chainD_lt nodes.length r (n + 1) h
    rw [hN] at h
    simp only [chainD] at h
    by_cases hrid : (r.objId == rootId) = true
    · rw [if_pos hrid] at h
      simp at h
    · rw [if_neg hrid] at h
      cases hpar : parentIn nodes r with
      | none => simp [hpar] at h
      | some pr =>
        simp only [hpar] at h
        rcases Option.map_eq_some'.mp h with ⟨n0, hn0, heq⟩
        have hn0n : n0 = n := by omega
        rw [hn0n] at hn0
        rcases parentIn_some hpar with ⟨hprm, hrep⟩
        have hprD : chainD nodes rootId nodes.length pr = some n :=
          chainD_mono (by omega) hn0
        have hmem := ih pr hprm hprD
        have hchild : r ∈ childrenOf nodes rootId pr.objId := by
          apply List.mem_filter.mpr
          refine ⟨hr, ?_⟩
          simp [hrid, hrep]
        have := flatten_child_mem nodes rootId nodes.length root 0 pr n r
          hmem hchild (by omega)
        exact this

theorem childrenOf_unpack {nodes : List TRec} {rootId x : String} {c : TRec}
    (h : c ∈ childrenOf nodes rootId x) :
    c ∈ nodes ∧ c.objId ≠ rootId ∧ c.inReplyTo = some x := by
  rcases List.mem_filter.mp h with ⟨hm, hp⟩
  simp at hp
  exact ⟨hm, hp.1, hp.2⟩

theorem flatten_mem_upChain (nodes : List TRec) (rootId : String) :
    ∀ (fuel : Nat) (x : TRec) (lvl : Nat) (y : TRec) (m : Nat),
      x ∈ nodes → (y, m) ∈ flattenThread nodes rootId fuel x lvl →
      ∃ k, UpChain nodes y x k ∧ m = lvl + k := by
  intro fuel
  induction fuel with
  | zero => intro x lvl y m _ h; simp [flattenThread] at h
  | succ fuel ih =>
    intro x lvl y m hx h
    simp only [flattenThread, List.mem_cons] at h
    rcases h with he | hj
    · rw [Prod.mk.injEq] at he
      rcases he with ⟨he1, he2⟩
      subst he1
      subst he2
      exact ⟨0, UpChain.refl y, by omega⟩
    · rcases List.mem_flatten.mp hj with ⟨s, hs, hmems⟩
      rcases List.mem_map.mp hs with ⟨c0, hc0, rfl⟩
      have hc0child := childrenOf_unpack ((mem_sortAscBy _ _ _).mp hc0)
      rcases hc0child with ⟨hc0m, _, hc0rep⟩
      rcases ih c0 (lvl + 1) y m hc0m hmems with ⟨k, hup, hm⟩
      refine ⟨k + 1, ?_, by omega⟩
      exact upChain_compose hup (UpChain.step hc0rep hx (UpChain.refl x))

theorem upChain_no_cycle {nodes : List TRec} {root : TRec}
    (hnodup : (nodes.map (fun r => r.objId)).Nodup)
    (hroot : root.inReplyTo = none)
    (hreach : ∀ r ∈ nodes, ∃ t, UpChain nodes r root t) :
    ∀ x ∈ nodes, ∀ k, UpChain nodes x x k → k = 0 := by
  intro x hx k hk
  rcases hreach x hx with ⟨t, ht⟩
  have hcomp := upChain_compose hk ht
  have := upChain_unique_to_root hnodup hroot ht hcomp
  omega

/-- Counting in a concatenation whose pieces each hold `y` at most once and
pairwise exclude sharing `y`. -/
theorem count_flatten_le_one {β : Type} [DecidableEq β] (y : β) :
    ∀ (L : List (List β)),
      (∀ s ∈ L, List.count y s ≤ 1) →
      L.Pairwise (fun s1 s2 => y ∈ s1 → y ∉ s2) →
      List.count y L.flatten ≤ 1 := by
  intro L
  induction L with
  | nil => intro _ _; simp
  | cons s rest ih =>
    intro hone hpair
    rcases List.pairwise_cons.mp hpair with ⟨hhead, hrest⟩
    rw [List.flatten_cons, List.count_append]
    by_cases hy : y ∈ s
    · have h0 : List.count y rest.flatten = 0 := by
        rw [List.count_eq_zero]
        intro hmem
        rcases List.mem_flatten.mp hmem with ⟨s2, hs2, hy2⟩
        exact hhead s2 hs2 hy hy2
      have h1 := hone s (List.mem_cons_self _ _)
      omega
    · have h0 : List.count y s = 0 := List.count_eq_zero.mpr hy
      have h1 := ih (fun t ht => hone t (List.mem_cons_of_mem _ ht)) hrest
      omega

theorem flatten_count_le_one {nodes : List TRec} {rootId : String} {root : TRec}
    (hnodup : (nodes.map (fun r => r.objId)).Nodup)
    (hroot : root.inReplyTo = none)
    (hreach : ∀ r ∈ nodes, ∃ t, UpChain nodes r root t) :
    ∀ (fuel : Nat) (x : TRec) (lvl : Nat) (y : TRec),
      x ∈ nodes →
      List.count y ((flattenThread nodes rootId fuel x lvl).map Prod.fst) ≤ 1 := by
  intro fuel
  induction fuel with
  | zero => intro x lvl y _; simp [flattenThread]
  | succ fuel ih =>
    intro x lvl y hx
    have hchildnodes : ∀ c ∈ sortAscBy (fun r => r.published)
        (childrenOf nodes rootId x.objId), c ∈ nodes := by
      intro c hc
      exact (childrenOf_unpack ((mem_sortAscBy _ _ _).mp hc)).1
    have hysub : ∀ c ∈ sortAscBy (fun r => r.published)
        (childrenOf nodes rootId x.objId),
        y ∈ (flattenThread nodes rootId fuel c (lvl + 1)).map Prod.fst →
        ∃ k j, UpChain nodes y x (k + 1) ∧ UpChain nodes y c j := by
      intro c hc hy
      rcases List.mem_map.mp hy with ⟨⟨y2, m⟩, hmem, hfst⟩
      have hy2 : y2 = y := hfst
      rw [hy2] at hmem
      rcases flatten_mem_upChain nodes rootId fuel c (lvl + 1) y m
        (hchildnodes c hc) hmem with ⟨k, hup, _⟩
      have hrep := (childrenOf_unpack ((mem_sortAscBy _ _ _).mp hc)).2.2
      exact ⟨k, k, upChain_compose hup (UpChain.step hrep hx (UpChain.refl x)), hup⟩
    simp only [flattenThread, List.map_cons, List.map_flatten, List.map_map]
    rw [List.count_cons]
    by_cases hyx : (x == y) = true
    · have hyx2 : y = x := (beq_iff_eq.mp hyx).symm
      have h0 : List.count y ((sortAscBy (fun r => r.published)
          (childrenOf nodes rootId x.objId)).map
            ((fun l => l.map Prod.fst) ∘
              (fun c => flattenThread nodes rootId fuel c (lvl + 1)))).flatten = 0 := by
        rw [List.count_eq_zero]
        intro hmem
        rcases List.mem_flatten.mp hmem with ⟨s, hs, hys⟩
        rcases List.mem_map.mp hs with ⟨c, hc, rfl⟩
        rcases hysub c hc hys with ⟨k, _, hcyc, _⟩
        rw [hyx2] at hcyc
        have := upChain_no_cycle hnodup hroot hreach x hx (k + 1) hcyc
        omega
      rw [show (List.map Prod.fst ∘ fun c => flattenThread nodes rootId fuel c (lvl + 1))
          = ((fun l => l.map Prod.fst) ∘
              (fun c => flattenThread nodes rootId fuel c (lvl + 1))) from rfl]
      rw [h0]
      simp
      split <;> omega
    · rw [if_neg hyx]
      have hle := count_flatten_le_one y
        ((sortAscBy (fun r => r.published) (childrenOf nodes rootId x.objId)).map
          ((fun l => l.map Prod.fst) ∘
            (fun c => flattenThread nodes rootId fuel c (lvl + 1))))
        (by
          intro s hs
          rcases List.mem_map.mp hs with ⟨c, hc, rfl⟩
          exact ih c (lvl + 1) y (hchildnodes c hc))
        (by
          rw [List.pairwise_map]
          have hnd : (sortAscBy (fun r => r.published)
              (childrenOf nodes rootId x.objId)).Nodup := by
            have h1 : nodes.Nodup := List.Nodup.of_map _ hnodup
            have h2 := List.Nodup.filter
              (fun r => !(r.objId == rootId) && r.inReplyTo == some x.objId) h1
            exact ((perm_sortAscBy (fun r : TRec => r.published) _).nodup_iff).mpr h2
          refine List.Pairwise.imp_of_mem ?_ hnd
          intro c1 c2 hc1 hc2 hne hy1 hy2
          rcases hysub c1 hc1 hy1 with ⟨k1, j1, hupx1, hj1⟩
          rcases hysub c2 hc2 hy2 with ⟨k2, j2, hupx2, hj2⟩
          have hrep1 := (childrenOf_unpack ((mem_sortAscBy _ _ _).mp hc1)).2.2
          have hrep2 := (childrenOf_unpack ((mem_sortAscBy _ _ _).mp hc2)).2.2
          rcases Nat.le_total j1 j2 with hle2 | hle2
          · have hlin := upChain_linear hnodup hj1 hj2 hle2
            rcases Nat.eq_or_lt_of_le hle2 with heq | hlt
            · subst heq
              rw [Nat.sub_self] at hlin
              exact hne (upChain_zero hlin)
            · obtain ⟨d, hd⟩ : ∃ d, j2 - j1 = d + 1 := ⟨j2 - j1 - 1, by omega⟩
              rw [hd] at hlin
              cases hlin with
              | step hs hp hrec =>
                have hpx : _ = x := nodes_id_inj hnodup hp hx
                  (Option.some.inj (hs.symm.trans hrep1))
                rw [hpx] at hrec
                have hcyc := upChain_compose hrec
                  (UpChain.step hrep2 hx (UpChain.refl x))
                have := upChain_no_cycle hnodup hroot hreach x hx (d + 1) hcyc
                omega
          · have hlin := upChain_linear hnodup hj2 hj1 hle2
            rcases Nat.eq_or_lt_of_le hle2 with heq | hlt
            · subst heq
              rw [Nat.sub_self] at hlin
              exact hne (upChain_zero hlin).symm
            · obtain ⟨d, hd⟩ : ∃ d, j1 - j2 = d + 1 := ⟨j1 - j2 - 1, by omega⟩
              rw [hd] at hlin
              cases hlin with
              | step hs hp hrec =>
                have hpx : _ = x := nodes_id_inj hnodup hp hx
                  (Option.some.inj (hs.symm.trans hrep2))
                rw [hpx] at hrec
                have hcyc := upChain_compose hrec
                  (UpChain.step hrep1 hx (UpChain.refl x))
                have := upChain_no_cycle hnodup hroot hreach x hx (d + 1) hcyc
                omega)
      rw [show (List.map Prod.fst ∘ fun c => flattenThread nodes rootId fuel c (lvl + 1))
          = ((fun l => l.map Prod.fst) ∘
              (fun c => flattenThread nodes rootId fuel c (lvl + 1))) from rfl]
      omega

/-- The reachability hypothesis guarantees a collected record carrying the
root id exists (the target of the last hop of any chain). -/
theorem chainD_root_exists (nodes : List TRec) (rootId : String) :
    ∀ (f : Nat) (r : TRec) (n : Nat), r ∈ nodes →
      chainD nodes rootId f r = some n →
      ∃ s ∈ nodes, s.objId = rootId := by
  intro f
  induction f with
  | zero => intro r n _ h; simp [chainD] at h
  | succ f ih =>
    intro r n hr h
    rw [chainD_succ] at h
    by_cases hrid : (r.objId == rootId) = true
    · exact ⟨r, hr, beq_iff_eq.mp hrid⟩
    · rw [if_neg hrid] at h
      cases hpar : parentIn nodes r with
      | none => simp [hpar] at h
      | some pr =>
        simp only [hpar] at h
        rcases Option.map_eq_some'.mp h with ⟨n0, hn0, rfl⟩
        rcases parentIn_some hpar with ⟨hprm, _⟩
        exact ih pr n0 hprm hn0

/-- C6: when the collected notes' `inReplyTo` links form a tree reachable
from the root id — `rootRecord.meta.thread_root_parent` if set, else the
record's object id — in that every collected record reaches the root id by
`inReplyTo` hops through the collected set, and a record carrying the root
id has no `inReplyTo`, `_build_thread` raises no error and returns exactly
the claim's pre-order depth-first traversal from the root id (children
visited in ascending `published` order, nesting level = parent level + 1 =
the parent-hop distance, duplicates by object id removed keeping the first
occurrence): no collected note is duplicated and none is omitted. -/
theorem c6_build_thread_preorder (data : TRec) (inbox outbox threads : List TRec)
    (h2 : ∀ r ∈ threadNodes data inbox outbox threads,
        r.objId = data.threadRootParent.getD data.objId → r.inReplyTo = none)
    (h3 : ∀ r ∈ threadNodes data inbox outbox threads,
        (chainD (threadNodes data inbox outbox threads)
          (data.threadRootParent.getD data.objId)
          (threadNodes data inbox outbox threads).length r).isSome) :
    build_thread data inbox outbox threads
        = some (thread_spec data inbox outbox threads)
      ∧ ((thread_spec data inbox outbox threads).map (fun p => p.1.objId)).Nodup
      ∧ ∀ r ∈ threadNodes data inbox outbox threads,
          ∃ lvl, (r, lvl) ∈ thread_spec data inbox outbox threads
            ∧ chainD (threadNodes data inbox outbox threads)
                (data.threadRootParent.getD data.objId)
                (threadNodes data inbox outbox threads).length r = some lvl := by
  set nodes := threadNodes data inbox outbox threads with hnodes
  set rid := data.threadRootParent.getD data.objId with hridd
  have hnodup : (nodes.map (fun r => r.objId)).Nodup :=
    threadNodes_nodup data inbox outbox threads
  have hdata_mem : data ∈ threadCandidates data inbox outbox threads := by
    unfold threadCandidates
    exact List.mem_cons_self _ _
  obtain ⟨rt, hrtm, hrtid⟩ := threadNodes_covers data inbox outbox threads data hdata_mem
  obtain ⟨nrt, hnrt⟩ := Option.isSome_iff_exists.mp (h3 rt hrtm)
  obtain ⟨sr, hsrm, hsrid⟩ := chainD_root_exists nodes rid nodes.length rt nrt hrtm hnrt
  have hfindSome : (nodes.find? (fun r => r.objId == rid)).isSome := by
    rw [List.find?_isSome]
    exact ⟨sr, hsrm, by simp [hsrid]⟩
  obtain ⟨root, hfind⟩ := Option.isSome_iff_exists.mp hfindSome
  have hrootm : root ∈ nodes := List.mem_of_find?_eq_some hfind
  have hrootid : root.objId = rid := by
    have hb := List.find?_some hfind
    simpa using hb
  have hrootrep : root.inReplyTo = none := h2 root hrootm hrootid
  have hreach : ∀ r ∈ nodes, ∃ t, UpChain nodes r root t := by
    intro r hr
    obtain ⟨n, hn⟩ := Option.isSome_iff_exists.mp (h3 r hr)
    exact ⟨n, chainD_upChain hnodup hrootm hrootid nodes.length r n hr hn⟩
  have hguard : threadLinksOk nodes rid = true := by
    unfold threadLinksOk
    rw [Bool.and_eq_true]
    constructor
    · rw [List.all_eq_true]
      intro r hr
      by_cases hid : (r.objId == rid) = true
      · simp [hid]
      · obtain ⟨n, hn⟩ := Option.isSome_iff_exists.mp (h3 r hr)
        obtain ⟨N0, hN⟩ : ∃ N0, nodes.length = N0 + 1 :=
          ⟨nodes.length - 1, by
            have := List.length_pos.mpr (List.ne_nil_of_mem hr)
            omega⟩
        rw [hN, chainD_succ, if_neg hid] at hn
        cases hpar : parentIn nodes r with
        | none => simp [hpar] at hn
        | some pr =>
          rcases parentIn_some hpar with ⟨hprm, hrep⟩
          have hany : nodes.any (fun s => s.objId == pr.objId) = true := by
            rw [List.any_eq_true]
            exact ⟨pr, hprm, by simp⟩
          simp [hrep, hany]
    · rw [List.any_eq_true]
      exact ⟨sr, hsrm, by simp [hsrid]⟩
  have hspec_eq : thread_spec data inbox outbox threads =
      specPreorder nodes nodes.length root 0 := by
    unfold thread_spec
    show (match nodes.find? (fun r => r.objId == rid) with
      | some root => specPreorder nodes nodes.length root 0
      | none => []) = specPreorder nodes nodes.length root 0
    rw [hfind]
  have hbuild_eq : build_thread data inbox outbox threads =
      some (flattenThread nodes rid nodes.length root 0) := by
    unfold build_thread
    show (if threadLinksOk nodes rid = true then
        match nodes.find? (fun r => r.objId == rid) with
        | some root => some (flattenThread nodes rid nodes.length root 0)
        | none => none
      else none) = some (flattenThread nodes rid nodes.length root 0)
    rw [if_pos hguard, hfind]
  have hflatten_spec : flattenThread nodes rid nodes.length root 0 =
      specPreorder nodes nodes.length root 0 :=
    flatten_eq_specPreorder nodes rid h2 nodes.length root 0
  refine ⟨?_, ?_, ?_⟩
  · rw [hbuild_eq, hflatten_spec, hspec_eq]
  · rw [hspec_eq, ← hflatten_spec]
    have hrecnodup :
        ((flattenThread nodes rid nodes.length root 0).map Prod.fst).Nodup := by
      rw [List.nodup_iff_count_le_one]
      intro y
      exact flatten_count_le_one hnodup hrootrep hreach nodes.length root 0 y hrootm
    have hsubset : ∀ z ∈ (flattenThread nodes rid nodes.length root 0).map
        Prod.fst, z ∈ nodes := by
      intro z hz
      rcases List.mem_map.mp hz with ⟨⟨z2, m⟩, hmem, hfst⟩
      have hz2 := flatten_fst_mem_nodes nodes rid nodes.length root 0 z2 m
        hrootm hmem
      exact hfst ▸ hz2
    have hmapped : (((flattenThread nodes rid nodes.length root 0).map
        Prod.fst).map (fun r => r.objId)).Nodup :=
      List.Nodup.map_on
        (fun a ha b hb he => nodes_id_inj hnodup (hsubset a ha) (hsubset b hb) he)
        hrecnodup
    rw [List.map_map] at hmapped
    exact hmapped
  · intro r hr
    obtain ⟨n, hn⟩ := Option.isSome_iff_exists.mp (h3 r hr)
    refine ⟨n, ?_, hn⟩
    rw [hspec_eq, ← hflatten_spec]
    exact chainD_mem_flatten hnodup hrootm hrootid n r hr hn

/-- Scenario root note A (no reply-to, no thread-root shortcut). -/
def recA : TRec :=
  { objId := "A", inReplyTo := none, published := 1,
    threadRootParent := none, typ := "Create" }

/-- Scenario note B replying to A. -/
def recB : TRec :=
  { objId := "B", inReplyTo := some "A", published := 2,
    threadRootParent := some "A", typ := "Create" }

/-- Scenario note C replying to B. -/
def recC : TRec :=
  { objId := "C", inReplyTo := some "B", published := 3,
    threadRootParent := some "A", typ := "Create" }

/-- Witness for `c6_build_thread_preorder` at the claim's scenario, entered
through a reply record carrying the `thread_root_parent` shortcut: after
ingesting A, B replying to A and C replying to B, `buildThread` on B (whose
`thread_root_parent` is A) traverses from root A, and the thread — also the
one `buildThread(A)` returns — is `[A(level 0), B(level 1), C(level 2)]`. -/
theorem c6_build_thread_preorder_witness :
    recB.threadRootParent = some "A"
      ∧ (∀ r ∈ threadNodes recB [recA, recC] [] [],
          r.objId = recB.threadRootParent.getD recB.objId → r.inReplyTo = none)
      ∧ (∀ r ∈ threadNodes recB [recA, recC] [] [],
          (chainD (threadNodes recB [recA, recC] [] [])
            (recB.threadRootParent.getD recB.objId)
            (threadNodes recB [recA, recC] [] []).length r).isSome)
      ∧ build_thread recB [recA, recC] [] []
          = some (thread_spec recB [recA, recC] [] [])
      ∧ thread_spec recB [recA, recC] [] [] = [(recA, 0), (recB, 1), (recC, 2)]
      ∧ build_thread recA [recB, recC] [] []
          = some [(recA, 0), (recB, 1), (recC, 2)] :=
  ⟨rfl, by decide, by decide,
    (c6_build_thread_preorder recB [recA, recC] [] [] (by decide) (by decide)).1,
    by decide, by decide⟩

/-- C10 (amended): if some collected non-root record's `inReplyTo` is absent
or is not the object id of any collected record (itself included), or the
computed root id is not among the collected object ids, then `_build_thread`
raises an unhandled KeyError (modelled as `none`) instead of returning a
thread or a defined error. -/
theorem c10_missing_parent_key_error (data : TRec) (inbox outbox threads : List TRec)
    (h : (∃ r ∈ threadNodes data inbox outbox threads,
            r.objId ≠ data.threadRootParent.getD data.objId
              ∧ noParentInNodes (threadNodes data inbox outbox threads) r = true)
          ∨ ∀ s ∈ threadNodes data inbox outbox threads,
              s.objId ≠ data.threadRootParent.getD data.objId) :
    build_thread data inbox outbox threads = none := by
  have hguard : threadLinksOk (threadNodes data inbox outbox threads)
      (data.threadRootParent.getD data.objId) = false := by
    unfold threadLinksOk
    rcases h with ⟨r, hr, hne, hnop⟩ | hall
    · have hallf : (threadNodes data inbox outbox threads).all
          (fun r => r.objId == data.threadRootParent.getD data.objId
            || (match r.inReplyTo with
                | some p => (threadNodes data inbox outbox threads).any
                    (fun s => s.objId == p)
                | none => false)) = false := by
        rw [Bool.eq_false_iff]
        intro hall2
        rw [List.all_eq_true] at hall2
        have hrr := hall2 r hr
        have hidf : (r.objId == data.threadRootParent.getD data.objId) = false := by
          rw [beq_eq_false_iff_ne]
          exact hne
        rw [hidf, Bool.false_or] at hrr
        unfold noParentInNodes at hnop
        cases hrep : r.inReplyTo with
        | none => rw [hrep] at hrr; cases hrr
        | some p =>
          rw [hrep] at hrr hnop
          rcases List.any_eq_true.mp hrr with ⟨s, hsm, hsp⟩
          have := List.all_eq_true.mp hnop s hsm
          simp at this hsp
          exact this hsp
      rw [hallf, Bool.false_and]
    · have hanyf : (threadNodes data inbox outbox threads).any
          (fun s => s.objId == data.threadRootParent.getD data.objId) = false := by
        rw [Bool.eq_false_iff]
        intro hany
        rcases List.any_eq_true.mp hany with ⟨s, hsm, hsp⟩
        exact hall s hsm (by simpa using hsp)
      rw [hanyf, Bool.and_false]
  unfold build_thread
  show (if threadLinksOk (threadNodes data inbox outbox threads)
      (data.threadRootParent.getD data.objId) = true then
      match (threadNodes data inbox outbox threads).find?
        (fun r => r.objId == data.threadRootParent.getD data.objId) with
      | some root => some (flattenThread (threadNodes data inbox outbox threads)
          (data.threadRootParent.getD data.objId)
          (threadNodes data inbox outbox threads).length root 0)
      | none => none
    else none) = none
  rw [if_neg (by rw [hguard]; exact Bool.false_ne_true)]

/-- A note replying to itself, with the thread-root shortcut pointing at A. -/
def selfReplyB : TRec :=
  { objId := "B", inReplyTo := some "B", published := 2,
    threadRootParent := some "A", typ := "Create" }

/-- C10 counterexample: the claim predicts a KeyError whenever a collected
non-root record's `inReplyTo` is not the object id of any *other* collected
record; but for a self-reply (B replying to B), `idx` does contain the id, so
`_build_thread` raises nothing and happily returns the one-note thread. -/
theorem c10_counterexample_self_reply_returns :
    threadNodes recA [selfReplyB] [] [] = [recA, selfReplyB]
      ∧ selfReplyB.inReplyTo = some selfReplyB.objId
      ∧ selfReplyB.objId ≠ recA.objId
      ∧ build_thread recA [selfReplyB] [] [] = some [(recA, 0)] := by
  decide

/-- A reply note whose `inReplyTo` is missing. -/
def orphanB : TRec :=
  { objId := "B", inReplyTo := none, published := 2,
    threadRootParent := some "A", typ := "Create" }

/-- Witness for `c10_missing_parent_key_error` at a concrete store: B is
collected (its `thread_root_parent` is A) but has no `inReplyTo`, so the
loop's `idx[reply_of]` lookup raises. -/
theorem c10_missing_parent_key_error_witness :
    ((∃ r ∈ threadNodes recA [orphanB] [] [],
        r.objId ≠ recA.threadRootParent.getD recA.objId
          ∧ noParentInNodes (threadNodes recA [orphanB] [] []) r = true)
      ∨ ∀ s ∈ threadNodes recA [orphanB] [] [],
          s.objId ≠ recA.threadRootParent.getD recA.objId)
      ∧ build_thread recA [orphanB] [] [] = none :=
  ⟨Or.inl (by decide),
    c10_missing_parent_key_error recA [orphanB] [] [] (Or.inl (by decide))⟩
